import Mathlib

/-!
Verification development for the RentEase listing query engine and related
endpoint logic (flat/user listing with filter, sort and pagination; id-format
validation; message creation; user pre-save hook).  Controller and model code
from `src/controllers` and `src/models` is shallowly embedded as executable
Lean definitions; backing-store behaviour (MongoDB match/sort semantics) that
the repository does not contain is modelled from the specification and marked
as such in doc comments.
-/

namespace RentEase

open Batteries
open List (Perm Sublist)
open scoped List

/-- Strings are modelled as character lists, mirroring JavaScript's indexable
strings and easing induction over parsing code. -/
abbrev Str := List Char

/-- Converts a Lean string literal into the `Str` model. -/
def cs (s : String) : Str := s.data

/-- JavaScript whitespace characters relevant to `\s` and `Number` trimming. -/
def isWsChar (c : Char) : Bool :=
  c = ' ' || c = '\t' || c = '\n' || c = '\r' || c = '\x0b' || c = '\x0c'

/-- Membership test for a character in a string, as in JS `value.includes(c)`. -/
def hasChar (c : Char) (s : Str) : Bool := s.any (fun d => d = c)

/-- Embeds JS `value.split(sep)` for a single-character separator: the list of
segments between occurrences of `sep`; never empty. -/
def jsSplit (c : Char) : Str → List Str
  | [] => [[]]
  | x :: xs =>
    match jsSplit c xs with
    | [] => [[]]
    | h :: t => if x = c then [] :: h :: t else (x :: h) :: t

/-- Embeds JS `field.replace('-', '')` (a string pattern replaces only the
first occurrence). -/
def dropFirstDash : Str → Str
  | [] => []
  | x :: xs => if x = '-' then xs else x :: dropFirstDash xs

/-- Embeds JS `field.startsWith('-')`. -/
def headIsDash : Str → Bool
  | [] => false
  | c :: _ => c = '-'

/-- Decimal digit test. -/
def isDigitChar (c : Char) : Bool := '0' ≤ c && c ≤ '9'

/-- Numeric value of a digit character. -/
def digitVal (c : Char) : Nat := c.toNat - '0'.toNat

/-- Value of a digit string. -/
def digitsVal (s : Str) : Nat := s.foldl (fun n c => 10 * n + digitVal c) 0

/-- Parses a non-empty all-digit string. -/
def parseDigits (s : Str) : Option Nat :=
  if s ≠ [] && s.all isDigitChar then some (digitsVal s) else none

/-- Removes leading and trailing whitespace, as JS `trim()` and the
mongoose `trim: true` schema option do. -/
def trimWs (s : Str) : Str :=
  ((s.dropWhile isWsChar).reverse.dropWhile isWsChar).reverse

/-- Embeds the JS `Number(string)` coercion as used by the controllers,
restricted to optionally signed integer literals: surrounding whitespace is
trimmed, the empty string coerces to `0`, and any other non-numeric string
yields `NaN`, modelled as `none`. -/
def jsNumber (s : Str) : Option Int :=
  let t := trimWs s
  if t = [] then some 0
  else match t with
  | '-' :: rest => (parseDigits rest).map (fun n => -(n : Int))
  | '+' :: rest => (parseDigits rest).map (fun n => (n : Int))
  | _ => (parseDigits t).map (fun n => (n : Int))

/-- Calendar date as year/month/day components, as produced by the `$year`,
`$month` and `$dayOfMonth` aggregation operators in `getAllUsers`. -/
@[ext]
structure SDate where
  year : Int
  month : Int
  day : Int
deriving DecidableEq

/-- Componentwise lexicographic comparison of dates (the order the backing
store uses on stored date values). -/
def dateCmp : SDate → SDate → Ordering :=
  compareLex (compareOn SDate.year) (compareLex (compareOn SDate.month) (compareOn SDate.day))

theorem dateCmp_transCmp : TransCmp dateCmp := by
  unfold dateCmp
  infer_instance

theorem dateCmp_eq_iff {a b : SDate} : dateCmp a b = .eq ↔ a = b := by
  simp only [dateCmp, compareLex, compareOn, Ordering.then_eq_eq,
    BEqCmp.cmp_iff_eq, SDate.ext_iff]

/-- Boolean order on dates derived from `dateCmp`. -/
def sdLeB (a b : SDate) : Bool :=
  match dateCmp a b with
  | .gt => false
  | _ => true

/-- Derived age exactly as computed by the `$let` expression in
`getAllUsers` (`AdminController.js`): base year difference, minus one when the
current month/day precedes the birth month/day. -/
def ageOn (now dob : SDate) : Int :=
  (now.year - dob.year) -
    (if now.month < dob.month ∨ (now.month = dob.month ∧ now.day < dob.day) then 1 else 0)

/-- Gregorian leap-year rule. -/
def isLeapYear (y : Int) : Bool := (y % 4 = 0 && ¬ y % 100 = 0) || y % 400 = 0

/-- Number of days in a month. -/
def daysInMonth (y m : Int) : Int :=
  if m = 2 then (if isLeapYear y then 29 else 28)
  else if m = 4 ∨ m = 6 ∨ m = 9 ∨ m = 11 then 30
  else 31

/-- The calendar day after a date. -/
def nextDate (d : SDate) : SDate :=
  if d.day < daysInMonth d.year d.month then ⟨d.year, d.month, d.day + 1⟩
  else if d.month < 12 then ⟨d.year, d.month + 1, 1⟩
  else ⟨d.year + 1, 1, 1⟩

/-- A stored field value: BSON-style scalar values as they occur in the
flat/user collections.  `nan` is the IEEE NaN double produced by coercing a
malformed numeric string. -/
inductive Value where
  | nan
  | num (n : Int)
  | str (s : Str)
  | oid (n : Nat)
  | bool (b : Bool)
  | date (d : SDate)
deriving DecidableEq

/-- BSON type-bracket rank used for cross-type comparison, with NaN below all
numbers. -/
def valueRank : Value → Nat
  | .nan => 0
  | .num _ => 1
  | .str _ => 2
  | .oid _ => 3
  | .bool _ => 4
  | .date _ => 5

/-- Lexicographic comparison of character lists (the store's string order). -/
def lexCmp : Str → Str → Ordering
  | [], [] => .eq
  | [], _ :: _ => .lt
  | _ :: _, [] => .gt
  | a :: as, b :: bs => (compare a b).then (lexCmp as bs)

theorem lexCmp_swap : ∀ (s t : Str), (lexCmp s t).swap = lexCmp t s
  | [], [] => rfl
  | [], _ :: _ => rfl
  | _ :: _, [] => rfl
  | a :: as, b :: bs => by
    simp only [lexCmp, Ordering.swap_then, lexCmp_swap as bs]
    rw [OrientedCmp.symm a b]

theorem lexCmp_le_trans : ∀ {s t u : Str}, lexCmp s t ≠ .gt → lexCmp t u ≠ .gt →
    lexCmp s u ≠ .gt
  | [], t, u, _, _ => by cases u <;> simp [lexCmp]
  | _ :: _, [], _, h1, _ => absurd rfl h1
  | a :: as, b :: bs, [], _, h2 => absurd rfl h2
  | a :: as, b :: bs, c :: cs', h1, h2 => by
    simp only [lexCmp, ne_eq, Ordering.then_eq_gt, not_or, not_and] at h1 h2 ⊢
    refine ⟨TransCmp.le_trans h1.1 h2.1, fun e1 e2 => ?_⟩
    match ab : compare a b with
    | .gt => exact h1.1 ab
    | .eq =>
      exact lexCmp_le_trans (h1.2 ab) (h2.2 (TransCmp.cmp_congr_left ab ▸ e1)) e2
    | .lt => exact h2.1 (OrientedCmp.cmp_eq_gt.2 (TransCmp.cmp_congr_left e1 ▸ ab))

theorem lexCmp_eq_iff : ∀ {s t : Str}, lexCmp s t = .eq ↔ s = t
  | [], [] => by simp [lexCmp]
  | [], _ :: _ => by simp [lexCmp]
  | _ :: _, [] => by simp [lexCmp]
  | a :: as, b :: bs => by
    simp [lexCmp, Ordering.then_eq_eq, BEqCmp.cmp_iff_eq, lexCmp_eq_iff]

/-- Single total comparison over stored values: same-type values compare
within their type, values of different type bracket by `valueRank`. -/
def valueCmp : Value → Value → Ordering
  | .num a, .num b => compare a b
  | .str a, .str b => lexCmp a b
  | .oid a, .oid b => compare a b
  | .bool a, .bool b => compare a b
  | .date a, .date b => dateCmp a b
  | v, w => compare (valueRank v) (valueRank w)

theorem valueCmp_swap : ∀ (v w : Value), (valueCmp v w).swap = valueCmp w v := by
  intro v w
  cases v <;> cases w <;> simp only [valueCmp] <;>
    first
    | decide
    | exact OrientedCmp.symm ..
    | exact lexCmp_swap ..
    | exact dateCmp_transCmp.symm ..

theorem valueCmp_eq_iff : ∀ {v w : Value}, valueCmp v w = .eq ↔ v = w := by
  intro v w
  cases v <;> cases w <;> simp only [valueCmp, valueRank] <;>
    first
    | decide
    | simp [BEqCmp.cmp_iff_eq, lexCmp_eq_iff, dateCmp_eq_iff]

theorem valueCmp_le_trans : ∀ {u v w : Value}, valueCmp u v ≠ .gt →
    valueCmp v w ≠ .gt → valueCmp u w ≠ .gt := by
  intro u v w h1 h2
  cases u <;> cases v <;> cases w <;> simp only [valueCmp, valueRank] at h1 h2 ⊢ <;>
    first
    | decide
    | exact absurd h1 (by decide)
    | exact absurd h2 (by decide)
    | exact TransCmp.le_trans h1 h2
    | exact lexCmp_le_trans h1 h2
    | exact dateCmp_transCmp.le_trans h1 h2

theorem valueCmp_transCmp : TransCmp valueCmp where
  symm a b := valueCmp_swap a b
  le_trans := valueCmp_le_trans

/-- Comparison on an optional field value: a missing field sorts below every
present value, as in the backing store. -/
def optCmp : Option Value → Option Value → Ordering
  | none, none => .eq
  | none, some _ => .lt
  | some _, none => .gt
  | some a, some b => valueCmp a b

theorem optCmp_swap : ∀ (v w : Option Value), (optCmp v w).swap = optCmp w v
  | none, none => rfl
  | none, some _ => rfl
  | some _, none => rfl
  | some a, some b => valueCmp_swap a b

theorem optCmp_eq_iff : ∀ {v w : Option Value}, optCmp v w = .eq ↔ v = w
  | none, none => by simp [optCmp]
  | none, some _ => by simp [optCmp]
  | some _, none => by simp [optCmp]
  | some a, some b => by simp [optCmp, valueCmp_eq_iff]

theorem optCmp_le_trans : ∀ {u v w : Option Value}, optCmp u v ≠ .gt →
    optCmp v w ≠ .gt → optCmp u w ≠ .gt
  | none, _, none, _, _ => by simp [optCmp]
  | none, none, some _, _, _ => by simp [optCmp]
  | none, some _, some _, _, _ => by simp [optCmp]
  | some _, none, _, h1, _ => absurd rfl h1
  | some _, some _, none, _, h2 => absurd rfl h2
  | some a, some b, some c, h1, h2 => valueCmp_le_trans h1 h2

theorem optCmp_transCmp : TransCmp optCmp where
  symm a b := optCmp_swap a b
  le_trans := optCmp_le_trans

/-! Sort-spec parsing, as in step 3 of `getAllFlats` and the sort stage of
`getAllUsers`: split the `sort` parameter on commas; a leading `-` selects
descending order; the first `-` of the token is removed to obtain the field
name; default sort is by `createdAt` descending. -/

/-- Parses one comma-separated sort token list into (field, descending) pairs. -/
def parseSortSpec (s : Str) : List (Str × Bool) :=
  (jsSplit ',' s).map (fun f => (dropFirstDash f, headIsDash f))

/-- The sort specification actually used: `sort` when supplied and truthy,
else the `createdAt` descending default. -/
def sortSpecOf (sort : Option Str) : List (Str × Bool) :=
  match sort with
  | none => [(cs "createdAt", true)]
  | some s => if s = [] then [(cs "createdAt", true)] else parseSortSpec s

/-- Comparison of two documents on one sort key; a descending key flips the
comparison. -/
def fieldCmp (get : α → Str → Option Value) (f : Str) (d : Bool) (a b : α) : Ordering :=
  if d then optCmp (get b f) (get a f) else optCmp (get a f) (get b f)

theorem fieldCmp_transCmp (get : α → Str → Option Value) (f : Str) (d : Bool) :
    TransCmp (fieldCmp get f d) where
  symm a b := by
    cases d <;> simp only [fieldCmp, if_true, if_false, Bool.false_eq_true] <;>
      exact optCmp_swap ..
  le_trans := by
    intro a b c h1 h2
    cases d <;> simp only [fieldCmp, if_true, if_false, Bool.false_eq_true] at h1 h2 ⊢
    · exact optCmp_le_trans h1 h2
    · exact optCmp_le_trans h2 h1

/-- Lexicographic comparison along a parsed sort specification: compare on the
first key, break ties with the remaining keys. -/
def specCmp (get : α → Str → Option Value) : List (Str × Bool) → α → α → Ordering
  | [] => fun _ _ => .eq
  | e :: rest => compareLex (fieldCmp get e.1 e.2) (specCmp get rest)

theorem specCmp_transCmp (get : α → Str → Option Value) :
    ∀ (spec : List (Str × Bool)), TransCmp (specCmp get spec)
  | [] => { symm := fun _ _ => rfl, le_trans := fun _ h => h }
  | e :: rest => by
    haveI := specCmp_transCmp get rest
    haveI := fieldCmp_transCmp get e.1 e.2
    exact inferInstanceAs (TransCmp (compareLex (fieldCmp get e.1 e.2) (specCmp get rest)))

/-- Boolean "not after" relation induced by a sort specification. -/
def specLe (get : α → Str → Option Value) (spec : List (Str × Bool)) (a b : α) : Bool :=
  match specCmp get spec a b with
  | .gt => false
  | _ => true

theorem specLe_iff (get : α → Str → Option Value) (spec : List (Str × Bool)) (a b : α) :
    specLe get spec a b = true ↔ specCmp get spec a b ≠ .gt := by
  unfold specLe
  cases specCmp get spec a b <;> simp

theorem specLe_trans (get : α → Str → Option Value) (spec : List (Str × Bool)) (a b c : α)
    (h1 : specLe get spec a b = true) (h2 : specLe get spec b c = true) :
    specLe get spec a c = true := by
  rw [specLe_iff] at h1 h2 ⊢
  exact (specCmp_transCmp get spec).le_trans h1 h2

theorem specLe_total (get : α → Str → Option Value) (spec : List (Str × Bool)) (a b : α) :
    specLe get spec a b = true ∨ specLe get spec b a = true := by
  rw [specLe_iff, specLe_iff]
  by_cases h : specCmp get spec a b = .gt
  · right
    intro h'
    have := (specCmp_transCmp get spec).symm a b
    rw [h', ← h] at this
    exact absurd this.symm (by cases specCmp get spec a b <;> simp_all [Ordering.swap])
  · exact Or.inl h

/-! A stable sort, executable by structural recursion.  Modelled from the
spec: the backing store's `$sort` stage is a stable sort over the parsed
(field, direction) list, with ties left in their incoming order. -/

/-- Inserts an element into a sorted list, before the first element it is
`le`-below-or-tied-with; keeps earlier-inserted equal elements after `x`
never — `x` goes in front of the first `y` with `le x y`. -/
def insertS (le : α → α → Bool) (x : α) : List α → List α
  | [] => [x]
  | y :: ys => if le x y then x :: y :: ys else y :: insertS le x ys

/-- Stable insertion sort. -/
def sortS (le : α → α → Bool) (l : List α) : List α := l.foldr (insertS le) []

theorem insertS_perm (le : α → α → Bool) (x : α) :
    ∀ (l : List α), insertS le x l ~ x :: l
  | [] => List.Perm.refl _
  | y :: ys => by
    unfold insertS
    by_cases h : le x y = true
    · simp [h]
    · simp only [h]
      calc y :: insertS le x ys ~ y :: x :: ys := (insertS_perm le x ys).cons y
        _ ~ x :: y :: ys := List.Perm.swap x y ys

theorem sortS_perm (le : α → α → Bool) : ∀ (l : List α), sortS le l ~ l
  | [] => List.Perm.refl _
  | x :: xs => by
    unfold sortS
    simp only [List.foldr_cons]
    calc insertS le x (sortS le xs) ~ x :: sortS le xs := insertS_perm ..
      _ ~ x :: xs := (sortS_perm le xs).cons x

theorem mem_sortS (le : α → α → Bool) (l : List α) (a : α) :
    a ∈ sortS le l ↔ a ∈ l := (sortS_perm le l).mem_iff

theorem length_sortS (le : α → α → Bool) (l : List α) :
    (sortS le l).length = l.length := (sortS_perm le l).length_eq

theorem insertS_pairwise (le : α → α → Bool)
    (htot : ∀ a b, le a b = true ∨ le b a = true)
    (htrans : ∀ a b c, le a b = true → le b c = true → le a c = true) (x : α) :
    ∀ (l : List α), l.Pairwise (fun a b => le a b = true) →
      (insertS le x l).Pairwise (fun a b => le a b = true)
  | [], _ => by simp [insertS]
  | y :: ys, h => by
    unfold insertS
    by_cases hxy : le x y = true
    · simp only [hxy, if_true]
      refine List.Pairwise.cons ?_ h
      intro z hz
      rcases List.mem_cons.1 hz with rfl | hz
      · exact hxy
      · exact htrans x y z hxy ((List.pairwise_cons.1 h).1 z hz)
    · simp only [hxy]
      have hyx : le y x = true := (htot x y).resolve_left hxy
      refine List.Pairwise.cons ?_ (insertS_pairwise le htot htrans x ys (List.pairwise_cons.1 h).2)
      intro z hz
      rcases List.mem_cons.1 ((insertS_perm le x ys).mem_iff.1 hz) with rfl | hz
      · exact hyx
      · exact (List.pairwise_cons.1 h).1 z hz

theorem sortS_pairwise (le : α → α → Bool)
    (htot : ∀ a b, le a b = true ∨ le b a = true)
    (htrans : ∀ a b c, le a b = true → le b c = true → le a c = true) :
    ∀ (l : List α), (sortS le l).Pairwise (fun a b => le a b = true)
  | [] => List.Pairwise.nil
  | x :: xs => by
    unfold sortS
    simp only [List.foldr_cons]
    exact insertS_pairwise le htot htrans x _ (sortS_pairwise le htot htrans xs)

theorem sublist_insertS (le : α → α → Bool) (x : α) :
    ∀ (l : List α), l <+ insertS le x l
  | [] => List.nil_sublist _
  | y :: ys => by
    unfold insertS
    by_cases h : le x y = true
    · simp only [h, if_true]
      exact List.sublist_cons_self x (y :: ys)
    · simp only [h]
      exact (sublist_insertS le x ys).cons₂ y

theorem cons_sublist_insertS (le : α → α → Bool) (x : α) :
    ∀ {l c : List α}, c <+ l → (∀ z, z ∈ c → le x z = true) →
      x :: c <+ insertS le x l
  | [], c, hc, _ => by
    cases List.sublist_nil.1 hc
    exact List.Sublist.refl _
  | y :: ys, c, hc, hall => by
    unfold insertS
    by_cases hxy : le x y = true
    · simp only [hxy, if_true]
      exact hc.cons₂ x
    · simp only [hxy]
      cases hc with
      | cons _ h => exact (cons_sublist_insertS le x h hall).cons y
      | cons₂ _ h => exact absurd (hall y (List.mem_cons_self y _)) (by simp [hxy])

/-- Stability: any `le`-monotone sublist of the input is still a sublist of
the sorted output, so tied elements keep their incoming relative order. -/
theorem sublist_sortS (le : α → α → Bool) :
    ∀ {l c : List α}, c <+ l → c.Pairwise (fun a b => le a b = true) →
      c <+ sortS le l
  | [], c, hc, _ => by
    cases List.sublist_nil.1 hc
    exact List.Sublist.refl _
  | x :: xs, c, hc, hp => by
    unfold sortS
    simp only [List.foldr_cons]
    cases hc with
    | cons _ h =>
      exact (sublist_sortS le h hp).trans (sublist_insertS le x _)
    | cons₂ _ h =>
      rename_i c'
      have hp' := List.pairwise_cons.1 hp
      have ih : c' <+ sortS le xs := sublist_sortS le h hp'.2
      exact cons_sublist_insertS le x ih hp'.1

/-- The engine's sort stage: stable sort of the documents by the parsed sort
specification (or the `createdAt` descending default). -/
def applySortBy (get : α → Str → Option Value) (sort : Option Str) (l : List α) : List α :=
  sortS (specLe get (sortSpecOf sort)) l

theorem length_applySortBy (get : α → Str → Option Value) (sort : Option Str) (l : List α) :
    (applySortBy get sort l).length = l.length := length_sortS ..

theorem mem_applySortBy (get : α → Str → Option Value) (sort : Option Str) (l : List α)
    (a : α) : a ∈ applySortBy get sort l ↔ a ∈ l := mem_sortS ..

/-! Documents of the flats collection are modelled as association lists from
field names to values, so that the dynamic (stringly-keyed) filter builder of
`getAllFlats` can be embedded without fixing a schema. -/

/-- A stored document: field name / value pairs. -/
abbrev Record := List (Str × Value)

/-- Field access on a document. -/
def getField : Record → Str → Option Value
  | [], _ => none
  | (k, v) :: rest, f => if k = f then some v else getField rest f

/-- Pattern token of the compiled city regex: a literal character, or the
`[-\s]?` class produced from a run of hyphens/whitespace. -/
inductive CityTok where
  | lit (c : Char)
  | sep
deriving DecidableEq

/-- Compiles the city query value as `value.replace(/[-\s]+/g, '[-\\s]?')`
does: each maximal run of hyphens/whitespace becomes one optional-separator
token, every other character is a literal. -/
def cityTokens : Str → List CityTok
  | [] => []
  | c :: rest =>
    if isWsChar c || c = '-' then
      match cityTokens rest with
      | .sep :: ts => .sep :: ts
      | ts => .sep :: ts
    else .lit c :: cityTokens rest

/-- Matches the token list against a prefix of the text, case-insensitively;
an optional separator consumes zero or one hyphen/whitespace character. -/
def tokMatch : List CityTok → Str → Bool
  | [], _ => true
  | .lit _ :: _, [] => false
  | .lit c :: ts, d :: ds => (c.toLower = d.toLower) && tokMatch ts ds
  | .sep :: ts, [] => tokMatch ts []
  | .sep :: ts, d :: ds =>
    tokMatch ts (d :: ds) || ((isWsChar d || d = '-') && tokMatch ts ds)

/-- Unanchored regex search (`$regex` with the `i` option) of the compiled
city pattern in the stored text. -/
def citySearch (ts : List CityTok) : Str → Bool
  | [] => tokMatch ts []
  | d :: ds => tokMatch ts (d :: ds) || citySearch ts ds

/-- Case-insensitive prefix match of a literal pattern. -/
def litMatch : Str → Str → Bool
  | [], _ => true
  | _ :: _, [] => false
  | c :: cs', d :: ds => (c.toLower = d.toLower) && litMatch cs' ds

/-- Case-insensitive substring search, used for the `title`/`address`
free-text filters (regex metacharacters in the value are not modelled; the
claims under study use none). -/
def litSearch (pat : Str) : Str → Bool
  | [] => litMatch pat []
  | d :: ds => litMatch pat (d :: ds) || litSearch pat ds

/-- One parsed filter predicate, as produced by the dynamic filter builder in
`getAllFlats` (`FlatController.js`, step 1). -/
inductive Cond where
  | eqv (v : Value)
  | inSet (vs : List Value)
  | range (lo hi : Option Int)
  | city (ts : List CityTok)
  | substr (pat : Str)
deriving DecidableEq

/-- Numeric coercion of one comma-separated segment:
`isNaN(v) ? v : Number(v)`. -/
def coerceSeg (v : Str) : Value :=
  match jsNumber v with
  | some n => .num n
  | none => .str v

/-- The second range segment: JS array destructuring yields `undefined` when
`split` produced fewer than two parts, and `Number(undefined)` is NaN. -/
def rangeBound (parts : List Str) (i : Nat) : Option Int :=
  match parts.get? i with
  | some s => jsNumber s
  | none => none

/-- Classifies one query parameter into a filter predicate, following the
branch order of the source: comma list, then `-` range, then the `city`
regex, then `title`/`address` substring, then boolean literals, then
number-or-string equality. -/
def condOf (key v : Str) : Cond :=
  if hasChar ',' v then .inSet ((jsSplit ',' v).map coerceSeg)
  else if hasChar '-' v then
    .range (rangeBound (jsSplit '-' v) 0) (rangeBound (jsSplit '-' v) 1)
  else if key = cs "city" then .city (cityTokens v)
  else if key = cs "title" ∨ key = cs "address" then .substr v
  else if v = cs "true" then .eqv (.bool true)
  else if v = cs "false" then .eqv (.bool false)
  else .eqv (coerceSeg v)

/-- Builds the filter object: one predicate per query parameter. -/
def buildFilter (filters : List (Str × Str)) : List (Str × Cond) :=
  filters.map (fun e => (e.1, condOf e.1 e.2))

/-- Evaluates one predicate against an optional stored field value.  Modelled
from the spec where the store's semantics is involved: a NaN range bound
matches no stored record, and a missing field matches no equality/range/regex
predicate (no `null` values occur in the model). -/
def matchCond : Cond → Option Value → Bool
  | .eqv w, some x => x = w
  | .eqv _, none => false
  | .inSet ws, some x => ws.contains x
  | .inSet _, none => false
  | .range lo hi, some (.num n) =>
    (match lo with
     | some m => decide (m ≤ n)
     | none => false)
    && (match hi with
        | some m => decide (n ≤ m)
        | none => false)
  | .range _ _, _ => false
  | .city ts, some (.str s) => citySearch ts s
  | .city _, _ => false
  | .substr pat, some (.str s) => litSearch pat s
  | .substr _, _ => false

/-- A document satisfies the filter when it satisfies every predicate
(logical AND of the filter object's entries). -/
def matchesFilter (filter : List (Str × Cond)) (r : Record) : Bool :=
  filter.all (fun e => matchCond e.2 (getField r e.1))

/-! The flats listing executor (`getAllFlats` in `FlatController.js`):
filter, sort, owner join/unwind, pagination, plus the separate
`countDocuments` total. -/

/-- Result envelope of a listing endpoint: the success payload carries
`page`, `limit`, `totalCount`, `count = data.length` and `data`; any
aggregation failure surfaces as the catch-handler's 500 response. -/
inductive QueryResult (α : Type) where
  | ok (page limit totalCount count : Int) (data : List α)
  | err (status : Int) (message : String)
deriving DecidableEq

/-- Data array of a response (empty for an error response). -/
def dataOf : QueryResult α → List α
  | .ok _ _ _ _ d => d
  | .err _ _ => []

/-- Total count of a success response. -/
def totalCountOf : QueryResult α → Option Int
  | .ok _ _ t _ _ => some t
  | .err _ _ => none

/-- Success test on a response. -/
def isOk : QueryResult α → Bool
  | .ok _ _ _ _ _ => true
  | .err _ _ => false

/-- A flat document joined with its owner's projected public fields, the
shape produced by the `$lookup`/`$unwind`/`$project` stages. -/
structure JoinedFlat where
  flat : Record
  owner : Record
deriving DecidableEq

/-- Owner projection of the `$lookup` sub-pipeline: `_id`, `firstName`,
`lastName`, `email`. -/
def projOwner (u : Record) : Record :=
  u.filter (fun e =>
    e.1 = cs "_id" ∨ e.1 = cs "firstName" ∨ e.1 = cs "lastName" ∨ e.1 = cs "email")

/-- The users matching a flat's `owner` reference (`$lookup` on
`owner = _id`). -/
def ownerMatches (users : List Record) (r : Record) : List Record :=
  users.filter (fun u => getField u (cs "_id") = getField r (cs "owner"))

/-- `$lookup` followed by `$unwind`: each flat is paired with each matching
owner; flats with no matching owner are dropped. -/
def joinOwners (users : List Record) (l : List Record) : List JoinedFlat :=
  l.flatMap (fun r => (ownerMatches users r).map (fun u => ⟨r, projOwner u⟩))

/-- The full (unpaginated) flats pipeline: `$match`, `$sort`,
`$lookup`/`$unwind` — everything before `$skip`/`$limit`. -/
def flatsPipelineNoPage (users flats : List Record) (sort : Option Str)
    (filters : List (Str × Str)) : List JoinedFlat :=
  joinOwners users (applySortBy getField sort (flats.filter (matchesFilter (buildFilter filters))))

/-- The `getAllFlats` controller: query parameters are `page` (default 1),
`limit` (default 100000), `sort` and the remaining entries as filters.
`skip = (page-1)*limit`; a negative skip or non-positive limit makes the
aggregation fail, landing in the catch handler's 500 response.
`totalCount` is the separate `countDocuments(filter)` query. -/
def getAllFlats (users flats : List Record) (page limit : Int) (sort : Option Str)
    (filters : List (Str × Str)) : QueryResult JoinedFlat :=
  let filter := buildFilter filters
  let skip := (page - 1) * limit
  if skip < 0 ∨ limit ≤ 0 then .err 500 "Error fetching flats"
  else
    let joined := flatsPipelineNoPage users flats sort filters
    let data := (joined.drop skip.toNat).take limit.toNat
    .ok page limit ((flats.filter (matchesFilter filter)).length : Int)
      (data.length : Int) data

/-! The users listing executor (`getAllUsers` in `AdminController.js`). -/

/-- A stored user document (the fields the admin listing touches). -/
structure UserDoc where
  uid : Nat
  firstName : Str
  lastName : Str
  email : Str
  birthDate : SDate
  role : Str
  addedFlats : List Nat
  createdAt : Int
deriving DecidableEq

/-- The projected user summary returned by the admin listing, with the two
derived fields added by `$addFields`. -/
structure UserSummary where
  uid : Nat
  firstName : Str
  lastName : Str
  email : Str
  birthDate : SDate
  age : Int
  role : Str
  publishedFlatsCount : Int
  createdAt : Int
deriving DecidableEq

/-- The `$addFields` stage: `publishedFlatsCount` is the size of `addedFlats`
and `age` is computed by `ageOn` against the current date. -/
def addFieldsU (now : SDate) (u : UserDoc) : UserSummary :=
  { uid := u.uid, firstName := u.firstName, lastName := u.lastName, email := u.email,
    birthDate := u.birthDate, age := ageOn now u.birthDate, role := u.role,
    publishedFlatsCount := (u.addedFlats.length : Int), createdAt := u.createdAt }

/-- Field access on a user summary for the `$sort` stage. -/
def userGetField (u : UserSummary) (f : Str) : Option Value :=
  if f = cs "_id" then some (.oid u.uid)
  else if f = cs "firstName" then some (.str u.firstName)
  else if f = cs "lastName" then some (.str u.lastName)
  else if f = cs "email" then some (.str u.email)
  else if f = cs "birthDate" then some (.date u.birthDate)
  else if f = cs "age" then some (.num u.age)
  else if f = cs "role" then some (.str u.role)
  else if f = cs "publishedFlatsCount" then some (.num u.publishedFlatsCount)
  else if f = cs "createdAt" then some (.num u.createdAt)
  else none

/-- The `$match` stage built from the `role` and `age` query parameters (the
only filters `getAllUsers` reads before the pipeline), also used verbatim by
the `countDocuments` total.  The age range becomes a birth-date window
`[new Date(nowYear-max, m, d), new Date(nowYear-min, m, d)]`; a NaN bound
produces an invalid date, modelled from the spec as matching nothing. -/
def userMatchStage (now : SDate) (roleF ageF : Option Str) (u : UserDoc) : Bool :=
  (match roleF with
   | none => true
   | some r => if r = [] then true else u.role = r)
  && (match ageF with
      | none => true
      | some a =>
        if a = [] then true
        else
          let parts := jsSplit '-' a
          match rangeBound parts 0, rangeBound parts 1 with
          | some mn, some mx =>
            sdLeB ⟨now.year - mx, now.month, now.day⟩ u.birthDate
              && sdLeB u.birthDate ⟨now.year - mn, now.month, now.day⟩
          | _, _ => false)

/-- Inclusive range test `$gte min`/`$lte max` on a number; a NaN bound
matches nothing (modelled from the spec). -/
def rangeTest (lo hi : Option Int) (x : Int) : Bool :=
  match lo, hi with
  | some mn, some mx => decide (mn ≤ x) && decide (x ≤ mx)
  | _, _ => false

/-- The optional `publishedFlatsCount` range `$match` stage inserted after
`$addFields` when the `flatsCount` parameter is truthy.  A NaN bound matches
nothing (modelled from the spec). -/
def fcMatch (fcF : Option Str) (s : UserSummary) : Bool :=
  match fcF with
  | none => true
  | some v =>
    if v = [] then true
    else rangeTest (rangeBound (jsSplit '-' v) 0) (rangeBound (jsSplit '-' v) 1)
      s.publishedFlatsCount

/-- The full (unpaginated) users pipeline: `$match`, `$addFields`, the
optional `flatsCount` `$match`, then `$sort` — everything before
`$skip`/`$limit`/`$project`. -/
def usersPipelineNoPage (now : SDate) (users : List UserDoc) (sort roleF ageF fcF : Option Str) :
    List UserSummary :=
  applySortBy userGetField sort
    (((users.filter (userMatchStage now roleF ageF)).map (addFieldsU now)).filter (fcMatch fcF))

/-- The `getAllUsers` controller.  `totalCount` is
`countDocuments(matchStage)`: it sees only the `role`/`age` match stage, not
the `flatsCount` filter applied inside the pipeline. -/
def getAllUsers (now : SDate) (users : List UserDoc) (page limit : Int)
    (sort roleF ageF fcF : Option Str) : QueryResult UserSummary :=
  let skip := (page - 1) * limit
  if skip < 0 ∨ limit ≤ 0 then .err 500 "Error retrieving users"
  else
    let piped := usersPipelineNoPage now users sort roleF ageF fcF
    let data := (piped.drop skip.toNat).take limit.toNat
    .ok page limit ((users.filter (userMatchStage now roleF ageF)).length : Int)
      (data.length : Int) data

/-! The by-id endpoints (`getFlatById` in `FlatController.js`, `getUserById`
in `AdminController.js`). -/

/-- Hexadecimal digit test. -/
def isHexChar (c : Char) : Bool :=
  ('0' ≤ c && c ≤ '9') || ('a' ≤ c && c ≤ 'f') || ('A' ≤ c && c ≤ 'F')

/-- Modelled from the spec: the store's identifier format
(`mongoose.Types.ObjectId.isValid` for string input) — a 24-character
hexadecimal string. -/
def isValidObjectId (s : Str) : Bool := s.length = 24 && s.all isHexChar

/-- Numeric value of a hex digit. -/
def hexVal (c : Char) : Nat :=
  if '0' ≤ c && c ≤ '9' then c.toNat - '0'.toNat
  else if 'a' ≤ c && c ≤ 'f' then c.toNat - 'a'.toNat + 10
  else c.toNat - 'A'.toNat + 10

/-- Numeric value of a hex id string. -/
def hexToNat (s : Str) : Nat := s.foldl (fun n c => 16 * n + hexVal c) 0

/-- Observable outcome of a by-id endpoint: whether the store was queried
(`findById` reached) and the HTTP response. -/
structure Trace where
  queried : Bool
  status : Int
  message : String
deriving DecidableEq

/-- The `getFlatById` controller: the id format is validated first and an
invalid id is rejected with 400 before any store query; only then is the
store queried, with 404 for a missing flat. -/
def getFlatByIdEndpoint (flats : List Record) (flatId : Str) : Trace :=
  if !isValidObjectId flatId then ⟨false, 400, "Invalid flat ID format"⟩
  else
    match flats.find? (fun r => getField r (cs "_id") = some (.oid (hexToNat flatId))) with
    | none => ⟨true, 404, "Flat not found"⟩
    | some _ => ⟨true, 200, "success"⟩

/-- The `getUserById` controller: no format validation — `findById` is called
with the raw id.  For a malformed id the store layer raises a cast error,
which the catch handler converts to the generic 500 response. -/
def getUserByIdEndpoint (users : List Record) (id : Str) : Trace :=
  if !isValidObjectId id then ⟨true, 500, "Error retrieving user"⟩
  else
    match users.find? (fun r => getField r (cs "_id") = some (.oid (hexToNat id))) with
    | none => ⟨true, 404, "User not found"⟩
    | some _ => ⟨true, 200, "success"⟩

/-! Message creation (`addMessage` in `MessageController.js`). -/

/-- A flat document as the message controller sees it. -/
structure FlatDoc where
  fid : Nat
  owner : Nat
  messages : List Nat
deriving DecidableEq

/-- A stored message document. -/
structure MessageDoc where
  mid : Nat
  flatId : Nat
  senderId : Nat
  content : Str
deriving DecidableEq

/-- Store state touched by `addMessage`: the flats and messages collections
plus a fresh-id counter. -/
structure AppState where
  flats : List FlatDoc
  msgs : List MessageDoc
  nextId : Nat
deriving DecidableEq

/-- Response of the message endpoint. -/
structure MsgResp where
  status : Int
  message : String
deriving DecidableEq

/-- The `addMessage` controller: 404 when the flat does not exist; 403 when
the sender owns the flat (nothing written).  `Message.create` then validates
the content per `MessageModel.js` — required, trimmed, 1 to 1000 characters:
invalid content raises a validation error caught by the handler (500, nothing
written).  Otherwise the message is created with the trimmed content and its
id pushed onto the flat's `messages` array. -/
def addMessage (st : AppState) (flatId senderId : Nat) (content : Str) :
    MsgResp × AppState :=
  match st.flats.find? (fun f => f.fid = flatId) with
  | none => (⟨404, "Flat not found"⟩, st)
  | some flat =>
    if flat.owner = senderId then
      (⟨403, "Owners cannot send messages to their own flats"⟩, st)
    else
      let t := trimWs content
      if t.length < 1 ∨ 1000 < t.length then
        (⟨500, "Server error while sending message"⟩, st)
      else
        let m : MessageDoc := ⟨st.nextId, flatId, senderId, t⟩
        let flats' := st.flats.map (fun f =>
          if f.fid = flatId then { f with messages := f.messages ++ [m.mid] } else f)
        (⟨201, "success"⟩, ⟨flats', st.msgs ++ [m], st.nextId + 1⟩)

/-! The user pre-save hook (`userSchema.pre('save')` in `UserModel.js`). -/

/-- The fields of a user document the pre-save hook touches. -/
structure RegUser where
  email : Str
  password : Str
  role : Str
deriving DecidableEq

/-- The pre-save hook: skipped entirely when the password path is not
modified; otherwise the password is hashed (bcrypt is modelled as an abstract
function argument) and, when the document is new, the role is overwritten
with `user`.  On a new document every set path — in particular the required
`password` — is modified, so the hook always runs for documents that can be
saved at registration. -/
def preSaveHook (hash : Str → Str) (isNew : Bool) (modifiedPaths : List Str)
    (u : RegUser) : RegUser :=
  if cs "password" ∉ modifiedPaths then u
  else
    let u' := { u with password := hash u.password }
    if isNew then { u' with role := cs "user" } else u'

/-! Generic supporting lemmas. -/

/-- Concatenating the windows `drop (i*L) |>.take L` for `i = 0..N-1`
reproduces the whole list once `N*L` covers its length. -/
theorem flatten_windows : ∀ (N : Nat) (l : List α) (L : Nat), 1 ≤ L →
    l.length ≤ N * L →
    ((List.range N).map (fun i => (l.drop (i * L)).take L)).flatten = l := by
  intro N
  induction N with
  | zero =>
    intro l L _ hlen
    simp only [Nat.zero_mul, Nat.le_zero] at hlen
    simp [List.length_eq_zero.1 hlen]
  | succ N ih =>
    intro l L hL hlen
    rw [List.range_succ_eq_map]
    simp only [List.map_cons, List.map_map, Nat.zero_mul, List.drop_zero,
      List.flatten_cons]
    have hfun : ((fun i => (l.drop (i * L)).take L) ∘ Nat.succ)
        = (fun i => ((l.drop L).drop (i * L)).take L) := by
      funext i
      simp only [Function.comp, List.drop_drop, Nat.succ_mul]
      rw [Nat.add_comm (i * L) L]
    rw [hfun, ih (l.drop L) L hL (by
      simp only [List.length_drop]
      have h2 : (N + 1) * L = N * L + L := Nat.succ_mul N L
      omega)]
    exact List.take_append_drop L l

/-- Two sorted permutations of each other are equal, provided the order is
antisymmetric on the elements involved. -/
theorem eq_of_perm_of_pairwise {r : α → α → Prop} :
    ∀ {l₁ l₂ : List α}, l₁ ~ l₂ → l₁.Pairwise r → l₂.Pairwise r →
      (∀ a b, a ∈ l₁ → b ∈ l₁ → r a b → r b a → a = b) → l₁ = l₂ := by
  intro l₁
  induction l₁ with
  | nil =>
    intro l₂ hp _ _ _
    exact hp.nil_eq
  | cons a t ih =>
    intro l₂ hp h1 h2 anti
    cases l₂ with
    | nil => exact absurd hp.symm.nil_eq (by simp)
    | cons b t₂ =>
      have hab : a = b := by
        by_contra hne
        have hat2 : a ∈ t₂ := by
          rcases List.mem_cons.1 (hp.mem_iff.1 (List.mem_cons_self a t)) with h | h
          · exact absurd h hne
          · exact h
        have hbt : b ∈ t := by
          rcases List.mem_cons.1 (hp.symm.mem_iff.1 (List.mem_cons_self b t₂)) with h | h
          · exact absurd h.symm hne
          · exact h
        have rab : r a b := (List.pairwise_cons.1 h1).1 b hbt
        have rba : r b a := (List.pairwise_cons.1 h2).1 a hat2
        exact hne (anti a b (List.mem_cons_self a t) (List.mem_cons_of_mem a hbt) rab rba)
      subst hab
      have ht : t = t₂ := by
        refine ih hp.cons_inv (List.pairwise_cons.1 h1).2 (List.pairwise_cons.1 h2).2 ?_
        intro x y hx hy
        exact anti x y (List.mem_cons_of_mem a hx) (List.mem_cons_of_mem a hy)
      rw [ht]

theorem jsSplit_of_no_sep {c : Char} : ∀ {s : Str}, hasChar c s = false →
    jsSplit c s = [s]
  | [], _ => rfl
  | x :: xs, h => by
    have hx : ¬ x = c := by
      simp only [hasChar, List.any_cons, Bool.or_eq_false_iff] at h
      simpa using h.1
    have hxs : hasChar c xs = false := by
      simp only [hasChar, List.any_cons, Bool.or_eq_false_iff] at h
      exact h.2
    simp [jsSplit, jsSplit_of_no_sep hxs, hx]

theorem dropFirstDash_of_no_dash : ∀ {s : Str}, hasChar '-' s = false →
    dropFirstDash s = s
  | [], _ => rfl
  | x :: xs, h => by
    have hx : ¬ x = '-' := by
      simp only [hasChar, List.any_cons, Bool.or_eq_false_iff] at h
      simpa using h.1
    have hxs : hasChar '-' xs = false := by
      simp only [hasChar, List.any_cons, Bool.or_eq_false_iff] at h
      exact h.2
    simp [dropFirstDash, dropFirstDash_of_no_dash hxs, hx]

theorem specCmp_single (get : α → Str → Option Value) (f : Str) (d : Bool) (a b : α) :
    specCmp get [(f, d)] a b = fieldCmp get f d a b := by
  show (fieldCmp get f d a b).then .eq = fieldCmp get f d a b
  cases fieldCmp get f d a b <;> rfl

theorem matchesFilter_mem {filter : List (Str × Cond)} {r : Record}
    (hm : matchesFilter filter r = true) {e : Str × Cond} (he : e ∈ filter) :
    matchCond e.2 (getField r e.1) = true :=
  List.all_eq_true.1 hm e he

/-- Every data element of a flats listing response comes from the filtered
collection, with the unchanged flat document in its `flat` field. -/
theorem flat_of_mem_data {users flats : List Record} {page limit : Int}
    {sort : Option Str} {filters : List (Str × Str)} {jf : JoinedFlat}
    (h : jf ∈ dataOf (getAllFlats users flats page limit sort filters)) :
    jf.flat ∈ flats.filter (matchesFilter (buildFilter filters)) := by
  unfold getAllFlats at h
  by_cases hc : (page - 1) * limit < 0 ∨ limit ≤ 0
  · simp only [hc, if_true, dataOf] at h
    exact absurd h (List.not_mem_nil jf)
  · simp only [hc, if_false, dataOf] at h
    have hj : jf ∈ flatsPipelineNoPage users flats sort filters :=
      List.mem_of_mem_drop (List.mem_of_mem_take h)
    unfold flatsPipelineNoPage joinOwners at hj
    rcases List.mem_flatMap.1 hj with ⟨r, hr, hmem⟩
    rcases List.mem_map.1 hmem with ⟨u, _, hu⟩
    have : jf.flat = r := by rw [← hu]
    rw [this]
    exact (mem_applySortBy ..).1 hr

/-- Every data element of a users listing response survived the
`flatsCount` match stage. -/
theorem summary_of_mem_data {now : SDate} {users : List UserDoc} {page limit : Int}
    {sort roleF ageF fcF : Option Str} {s : UserSummary}
    (h : s ∈ dataOf (getAllUsers now users page limit sort roleF ageF fcF)) :
    s ∈ (((users.filter (userMatchStage now roleF ageF)).map (addFieldsU now)).filter
      (fcMatch fcF)) := by
  unfold getAllUsers at h
  by_cases hc : (page - 1) * limit < 0 ∨ limit ≤ 0
  · simp only [hc, if_true, dataOf] at h
    exact absurd h (List.not_mem_nil s)
  · simp only [hc, if_false, dataOf] at h
    have hj : s ∈ usersPipelineNoPage now users sort roleF ageF fcF :=
      List.mem_of_mem_drop (List.mem_of_mem_take h)
    unfold usersPipelineNoPage at hj
    exact (mem_applySortBy ..).1 hj

/-! Claim theorems. -/

/-- C10: every newly created user account is stored with role `user`,
regardless of any role supplied in the registration input: on a new document
(whose required `password` path is necessarily among the modified paths) the
pre-save hook overwrites the role with `user`. -/
theorem C10_new_user_role (hash : Str → Str) (mp : List Str) (u : RegUser)
    (hmp : cs "password" ∈ mp) :
    (preSaveHook hash true mp u).role = cs "user" := by
  unfold preSaveHook
  simp [hmp]

theorem C10_witness :
    cs "password" ∈ [cs "password", cs "role"] ∧
    (preSaveHook (fun s => s) true [cs "password", cs "role"]
      ⟨cs "eva@mail.com", cs "pw1!", cs "admin"⟩).role = cs "user" :=
  ⟨by decide, C10_new_user_role (fun s => s) [cs "password", cs "role"]
    ⟨cs "eva@mail.com", cs "pw1!", cs "admin"⟩ (by decide)⟩

/-- C9: a message on an existing listing is rejected with 403 when the sender
owns the listing — leaving the whole store state unchanged — and is created
(201, trimmed content appended to the messages collection) for any other
authenticated sender whose content passes the schema validation (trimmed
length 1 to 1000); content failing validation raises the caught error (500)
and writes nothing. -/
theorem C9_owner_message_rules (st : AppState) (flatId senderId : Nat) (content : Str)
    (flat : FlatDoc) (hfind : st.flats.find? (fun f => f.fid = flatId) = some flat) :
    (flat.owner = senderId →
      addMessage st flatId senderId content =
        (⟨403, "Owners cannot send messages to their own flats"⟩, st))
    ∧ (flat.owner ≠ senderId → 1 ≤ (trimWs content).length → (trimWs content).length ≤ 1000 →
      (addMessage st flatId senderId content).1.status = 201 ∧
      (addMessage st flatId senderId content).2.msgs =
        st.msgs ++ [⟨st.nextId, flatId, senderId, trimWs content⟩])
    ∧ (flat.owner ≠ senderId →
      ((trimWs content).length < 1 ∨ 1000 < (trimWs content).length) →
      addMessage st flatId senderId content =
        (⟨500, "Server error while sending message"⟩, st)) := by
  refine ⟨?_, ?_, ?_⟩
  · intro h
    unfold addMessage
    rw [hfind]
    simp [h]
  · intro h h1 h2
    have hne : ¬ trimWs content = [] := by
      intro he
      rw [he] at h1
      simp at h1
    have hc2 : ¬ 1000 < (trimWs content).length := by omega
    unfold addMessage
    rw [hfind]
    simp [h, hne, hc2]
  · intro h hbad
    have hbad' : trimWs content = [] ∨ 1000 < (trimWs content).length := by
      rcases hbad with hb | hb
      · exact Or.inl (List.length_eq_zero.1 (by omega))
      · exact Or.inr hb
    unfold addMessage
    rw [hfind]
    simp [h, hbad']

theorem C9_witness :
    ((AppState.mk [⟨1, 10, []⟩] [] 5).flats.find? (fun f => f.fid = 1) = some ⟨1, 10, []⟩) ∧
    (addMessage ⟨[⟨1, 10, []⟩], [], 5⟩ 1 10 (cs "hi") =
      (⟨403, "Owners cannot send messages to their own flats"⟩, ⟨[⟨1, 10, []⟩], [], 5⟩)) ∧
    ((addMessage ⟨[⟨1, 10, []⟩], [], 5⟩ 1 11 (cs "hi")).1.status = 201 ∧
      (addMessage ⟨[⟨1, 10, []⟩], [], 5⟩ 1 11 (cs "hi")).2.msgs =
        [] ++ [⟨5, 1, 11, trimWs (cs "hi")⟩]) ∧
    (addMessage ⟨[⟨1, 10, []⟩], [], 5⟩ 1 11 (cs " ") =
      (⟨500, "Server error while sending message"⟩, ⟨[⟨1, 10, []⟩], [], 5⟩)) :=
  ⟨by decide,
   (C9_owner_message_rules ⟨[⟨1, 10, []⟩], [], 5⟩ 1 10 (cs "hi") ⟨1, 10, []⟩ (by decide)).1 rfl,
   (C9_owner_message_rules ⟨[⟨1, 10, []⟩], [], 5⟩ 1 11 (cs "hi") ⟨1, 10, []⟩ (by decide)).2.1
     (by decide) (by decide) (by decide),
   (C9_owner_message_rules ⟨[⟨1, 10, []⟩], [], 5⟩ 1 11 (cs " ") ⟨1, 10, []⟩ (by decide)).2.2
     (by decide) (by decide)⟩

/-- C2, counterexample: the user-by-id endpoint does not reject a malformed
id before the store call — the raw id reaches `findById` and the request ends
in the generic 500 handler, not a pre-query validation rejection. -/
theorem C2_counterexample :
    isValidObjectId (cs "xyz") = false ∧
    (getUserByIdEndpoint [] (cs "xyz")).queried = true ∧
    (getUserByIdEndpoint [] (cs "xyz")).status = 500 := by decide

/-- C2, amended: the flat-by-id endpoint validates the id format and rejects
invalid ids with 400 before querying (distinct from the post-query 404),
while the user-by-id endpoint performs no format validation: the store call
is issued with the raw id and a malformed id surfaces as the generic 500
error. -/
theorem C2_amended :
    (∀ (flats : List Record) (id : Str), isValidObjectId id = false →
      (getFlatByIdEndpoint flats id).queried = false ∧
      (getFlatByIdEndpoint flats id).status = 400 ∧
      ¬ (getFlatByIdEndpoint flats id).status = 404)
    ∧ (∀ (users : List Record) (id : Str), isValidObjectId id = false →
      (getUserByIdEndpoint users id).queried = true ∧
      (getUserByIdEndpoint users id).status = 500) := by
  constructor
  · intro flats id h
    unfold getFlatByIdEndpoint
    simp [h]
  · intro users id h
    unfold getUserByIdEndpoint
    simp [h]

theorem C2_witness :
    ((getFlatByIdEndpoint [] (cs "zzz")).queried = false ∧
      (getFlatByIdEndpoint [] (cs "zzz")).status = 400 ∧
      ¬ (getFlatByIdEndpoint [] (cs "zzz")).status = 404) ∧
    ((getUserByIdEndpoint [] (cs "zzz")).queried = true ∧
      (getUserByIdEndpoint [] (cs "zzz")).status = 500) :=
  ⟨C2_amended.1 [] (cs "zzz") (by decide), C2_amended.2 [] (cs "zzz") (by decide)⟩

/-- C4, counterexample: on December 31 the month/day "one day after today's"
is January 1, whose birthday has already occurred that year, so the derived
age is the full year difference N, not N−1 as the claim states. -/
theorem C4_counterexample :
    nextDate ⟨2026, 12, 31⟩ = ⟨2027, 1, 1⟩ ∧
    ((2021 : Int) = 2026 - 5) ∧
    ageOn ⟨2026, 12, 31⟩ ⟨2021, 1, 1⟩ = 5 ∧
    ¬ ageOn ⟨2026, 12, 31⟩ ⟨2021, 1, 1⟩ = 5 - 1 := by decide

/-- C4, amended: a birth date exactly N years before today (same month and
day) yields age N; and a birth date whose month/day is one day after today's
yields N−1 provided the next day stays within the same calendar year (today
is not December 31 — otherwise the January-1 birthday has already occurred
and the age is N). -/
theorem C4_amended :
    (∀ (now dob : SDate) (N : Int), dob.year = now.year - N → dob.month = now.month →
      dob.day = now.day → ageOn now dob = N)
    ∧ (∀ (now dob : SDate) (N : Int), (nextDate now).year = now.year →
      dob.year = now.year - N → dob.month = (nextDate now).month →
      dob.day = (nextDate now).day → ageOn now dob = N - 1) := by
  constructor
  · intro now dob N h1 h2 h3
    unfold ageOn
    rw [h1, h2, h3]
    rw [if_neg (by omega)]
    ring
  · intro now dob N hy h1 h2 h3
    unfold nextDate at hy h2 h3
    by_cases hd : now.day < daysInMonth now.year now.month
    · rw [if_pos hd] at h2 h3
      have h2' : dob.month = now.month := h2
      have h3' : dob.day = now.day + 1 := h3
      unfold ageOn
      rw [h1, h2', h3']
      rw [if_pos (Or.inr ⟨rfl, by omega⟩)]
      ring
    · rw [if_neg hd] at hy h2 h3
      by_cases hm : now.month < 12
      · rw [if_pos hm] at h2 h3
        have h2' : dob.month = now.month + 1 := h2
        unfold ageOn
        rw [h1, h2']
        rw [if_pos (Or.inl (by omega))]
        ring
      · rw [if_neg hm] at hy
        have hy' : now.year + 1 = now.year := hy
        omega

theorem C4_witness :
    (ageOn ⟨2026, 10, 11⟩ ⟨2000, 10, 11⟩ = 26) ∧
    (ageOn ⟨2026, 10, 11⟩ ⟨2000, 10, 12⟩ = 26 - 1) :=
  ⟨C4_amended.1 ⟨2026, 10, 11⟩ ⟨2000, 10, 11⟩ 26 (by decide) (by decide) (by decide),
   C4_amended.2 ⟨2026, 10, 11⟩ ⟨2000, 10, 12⟩ 26 (by decide) (by decide) (by decide) (by decide)⟩

/-- A seed owner document. -/
def ownerRec : Record :=
  [(cs "_id", .oid 7), (cs "firstName", .str (cs "Ana")),
   (cs "lastName", .str (cs "Pop")), (cs "email", .str (cs "ana@mail.com"))]

/-- A seed flat document with city `Alba-Iulia`. -/
def albaFlat : Record :=
  [(cs "_id", .oid 1), (cs "city", .str (cs "Alba-Iulia")),
   (cs "rentPrice", .num 500), (cs "owner", .oid 7), (cs "createdAt", .num 1)]

/-- C7: the stored record with city `Alba-Iulia` is returned for the query
`city=Alba Iulia` (flexible regex branch), but the query `city=Alba-Iulia`
hits the earlier `includes('-')` range branch, becomes a NaN range and
returns nothing — contradicting the claim and the code's own comment on the
city branch. -/
theorem C7_code_behavior :
    getField albaFlat (cs "city") = some (.str (cs "Alba-Iulia")) ∧
    dataOf (getAllFlats [ownerRec] [albaFlat] 1 100000 none
      [(cs "city", cs "Alba Iulia")]) = [⟨albaFlat, ownerRec⟩] ∧
    dataOf (getAllFlats [ownerRec] [albaFlat] 1 100000 none
      [(cs "city", cs "Alba-Iulia")]) = [] := by decide

/-- Shared fact: under a malformed (NaN) range bound the built filter matches
no document. -/
theorem filter_nil_of_nan_bound {flats : List Record} {filters : List (Str × Str)}
    {k v : Str} (hin : (k, v) ∈ filters) (hnc : hasChar ',' v = false)
    (hda : hasChar '-' v = true)
    (hnan : rangeBound (jsSplit '-' v) 0 = none ∨ rangeBound (jsSplit '-' v) 1 = none) :
    flats.filter (matchesFilter (buildFilter filters)) = [] := by
  rw [List.filter_eq_nil_iff]
  intro r _ hm
  have hcmem : (k, condOf k v) ∈ buildFilter filters := by
    unfold buildFilter
    exact List.mem_map.2 ⟨(k, v), hin, rfl⟩
  have hmc := matchesFilter_mem hm hcmem
  have hcond : condOf k v =
      .range (rangeBound (jsSplit '-' v) 0) (rangeBound (jsSplit '-' v) 1) := by
    unfold condOf
    simp [hnc, hda]
  rw [hcond] at hmc
  rcases hnan with hn | hn <;> rw [hn] at hmc <;>
    (cases hval : getField r k with
     | none => rw [hval] at hmc; simp [matchCond] at hmc
     | some w =>
       rw [hval] at hmc
       cases w <;> simp [matchCond] at hmc)

/-- C8: the listing endpoint rejects nothing — with the default page/limit
every query (unknown fields included) yields a success response; and a range
whose segment fails numeric coercion degenerates to a NaN bound that matches
no record, so the result is merely empty. -/
theorem C8_malformed_tolerated :
    (∀ (users flats : List Record) (sort : Option Str) (filters : List (Str × Str)),
      isOk (getAllFlats users flats 1 100000 sort filters) = true)
    ∧ (∀ (users flats : List Record) (page limit : Int) (sort : Option Str)
        (filters : List (Str × Str)) (k v : Str), (k, v) ∈ filters →
      hasChar ',' v = false → hasChar '-' v = true →
      (rangeBound (jsSplit '-' v) 0 = none ∨ rangeBound (jsSplit '-' v) 1 = none) →
      flats.filter (matchesFilter (buildFilter filters)) = [] ∧
      dataOf (getAllFlats users flats page limit sort filters) = []) := by
  constructor
  · intro users flats sort filters
    unfold getAllFlats
    rw [if_neg (by norm_num)]
    rfl
  · intro users flats page limit sort filters k v hin hnc hda hnan
    have hfil : flats.filter (matchesFilter (buildFilter filters)) = [] :=
      filter_nil_of_nan_bound hin hnc hda hnan
    have hpipe : flatsPipelineNoPage users flats sort filters = [] := by
      unfold flatsPipelineNoPage
      rw [hfil]
      rfl
    refine ⟨hfil, ?_⟩
    unfold getAllFlats
    by_cases hc : (page - 1) * limit < 0 ∨ limit ≤ 0
    · rw [if_pos hc]
      rfl
    · rw [if_neg hc]
      simp [dataOf, hpipe]

theorem C8_witness :
    (isOk (getAllFlats [ownerRec] [albaFlat] 1 100000 none
      [(cs "unknownField", cs "whatever")]) = true) ∧
    ([albaFlat].filter (matchesFilter (buildFilter [(cs "rentPrice", cs "abc-600")])) = [] ∧
      dataOf (getAllFlats [ownerRec] [albaFlat] 1 100000 none
        [(cs "rentPrice", cs "abc-600")]) = []) :=
  ⟨C8_malformed_tolerated.1 [ownerRec] [albaFlat] none [(cs "unknownField", cs "whatever")],
   C8_malformed_tolerated.2 [ownerRec] [albaFlat] 1 100000 none
     [(cs "rentPrice", cs "abc-600")] (cs "rentPrice") (cs "abc-600")
     (by decide) (by decide) (by decide) (by decide)⟩

/-- C3: a `min-max` range filter whose segments both coerce to numbers
restricts every returned record to the inclusive interval: for flats, the
filtered field of every data element is a number within `[min, max]`; for the
users listing, every returned summary's `publishedFlatsCount` lies within the
`flatsCount` range. -/
theorem C3_range_bounds :
    (∀ (users flats : List Record) (page limit : Int) (sort : Option Str)
        (filters : List (Str × Str)) (k v : Str) (mn mx : Int),
      (k, v) ∈ filters → hasChar ',' v = false → hasChar '-' v = true →
      rangeBound (jsSplit '-' v) 0 = some mn → rangeBound (jsSplit '-' v) 1 = some mx →
      ∀ jf ∈ dataOf (getAllFlats users flats page limit sort filters),
        ∃ n : Int, getField jf.flat k = some (.num n) ∧ mn ≤ n ∧ n ≤ mx)
    ∧ (∀ (now : SDate) (users : List UserDoc) (page limit : Int)
        (sort roleF ageF : Option Str) (v : Str) (mn mx : Int),
      ¬ v = [] →
      rangeBound (jsSplit '-' v) 0 = some mn → rangeBound (jsSplit '-' v) 1 = some mx →
      ∀ s ∈ dataOf (getAllUsers now users page limit sort roleF ageF (some v)),
        mn ≤ s.publishedFlatsCount ∧ s.publishedFlatsCount ≤ mx) := by
  constructor
  · intro users flats page limit sort filters k v mn mx hin hnc hda hb0 hb1 jf hjf
    have hflt := flat_of_mem_data hjf
    have hm := (List.mem_filter.1 hflt).2
    have hcmem : (k, condOf k v) ∈ buildFilter filters := by
      unfold buildFilter
      exact List.mem_map.2 ⟨(k, v), hin, rfl⟩
    have hmc := matchesFilter_mem hm hcmem
    have hcond : condOf k v = .range (some mn) (some mx) := by
      unfold condOf
      simp [hnc, hda, hb0, hb1]
    rw [hcond] at hmc
    cases hval : getField jf.flat k with
    | none =>
      rw [hval] at hmc
      simp [matchCond] at hmc
    | some w =>
      rw [hval] at hmc
      cases w with
      | num n =>
        simp [matchCond] at hmc
        exact ⟨n, rfl, hmc.1, hmc.2⟩
      | nan => simp [matchCond] at hmc
      | str s => simp [matchCond] at hmc
      | oid n => simp [matchCond] at hmc
      | bool b => simp [matchCond] at hmc
      | date d => simp [matchCond] at hmc
  · intro now users page limit sort roleF ageF v mn mx hv hb0 hb1 s hs
    have h2 := summary_of_mem_data hs
    have hfc := (List.mem_filter.1 h2).2
    have hfc' : (if v = [] then true
        else rangeTest (rangeBound (jsSplit '-' v) 0) (rangeBound (jsSplit '-' v) 1)
          s.publishedFlatsCount) = true := hfc
    rw [if_neg hv, hb0, hb1] at hfc'
    simp [rangeTest] at hfc'
    exact hfc'

theorem C3_witness :
    (∀ jf ∈ dataOf (getAllFlats [ownerRec] [albaFlat] 1 100000 none
        [(cs "rentPrice", cs "300-600")]),
      ∃ n : Int, getField jf.flat (cs "rentPrice") = some (.num n) ∧ 300 ≤ n ∧ n ≤ 600) ∧
    (∀ s ∈ dataOf (getAllUsers ⟨2026, 10, 11⟩ [] 1 100000 none none none (some (cs "1-5"))),
      1 ≤ s.publishedFlatsCount ∧ s.publishedFlatsCount ≤ 5) :=
  ⟨C3_range_bounds.1 [ownerRec] [albaFlat] 1 100000 none [(cs "rentPrice", cs "300-600")]
     (cs "rentPrice") (cs "300-600") 300 600 (by decide) (by decide) (by decide)
     (by decide) (by decide),
   C3_range_bounds.2 ⟨2026, 10, 11⟩ [] 1 100000 none none none (cs "1-5") 1 5
     (by decide) (by decide) (by decide)⟩

/-- Length of the owner join when every flat matches exactly one user. -/
theorem length_joinOwners (users : List Record) :
    ∀ (l : List Record), (∀ r ∈ l, (ownerMatches users r).length = 1) →
      (joinOwners users l).length = l.length
  | [], _ => rfl
  | r :: rs, h => by
    unfold joinOwners
    rw [List.flatMap_cons]
    simp only [List.length_append, List.length_map]
    have ih : (joinOwners users rs).length = rs.length :=
      length_joinOwners users rs (fun x hx => h x (List.mem_cons_of_mem r hx))
    unfold joinOwners at ih
    rw [ih, h r (List.mem_cons_self r rs)]
    simp [Nat.add_comm]

/-- A seed user who has published two flats. -/
def cu1 : UserDoc :=
  ⟨1, cs "Ana", cs "Pop", cs "ana@mail.com", ⟨1990, 1, 1⟩, cs "user", [101, 102], 10⟩

/-- A seed user who has published no flat. -/
def cu2 : UserDoc :=
  ⟨2, cs "Bob", cs "Ion", cs "bob@mail.com", ⟨1985, 5, 5⟩, cs "user", [], 20⟩

/-- C1, counterexample: with a `flatsCount=1-5` filter, only one of the two
seeded users is in the unpaginated result set, yet `totalCount` — computed
from the role/age match stage only — still reports 2. -/
theorem C1_counterexample :
    totalCountOf (getAllUsers ⟨2026, 10, 11⟩ [cu1, cu2] 1 100000 none none none
      (some (cs "1-5"))) = some 2 ∧
    (usersPipelineNoPage ⟨2026, 10, 11⟩ [cu1, cu2] none none none
      (some (cs "1-5"))).length = 1 ∧
    ¬ totalCountOf (getAllUsers ⟨2026, 10, 11⟩ [cu1, cu2] 1 100000 none none none
        (some (cs "1-5"))) =
      some ((usersPipelineNoPage ⟨2026, 10, 11⟩ [cu1, cu2] none none none
        (some (cs "1-5"))).length : Int) := by decide

/-- C1, amended: `totalCount` equals the size of the full unpaginated result
set for GET /flats (given that every listing's owner resolves to exactly one
user) and for GET /users/allUsers for the role/age filters; the derived-field
`flatsCount` filter is excluded from the count path, so with it present
`totalCount` can exceed the result-set size (see the counterexample). -/
theorem C1_total_count :
    (∀ (users flats : List Record) (page limit : Int) (sort : Option Str)
        (filters : List (Str × Str)), 1 ≤ page → 1 ≤ limit →
      (∀ r ∈ flats, (ownerMatches users r).length = 1) →
      totalCountOf (getAllFlats users flats page limit sort filters) =
        some ((flatsPipelineNoPage users flats sort filters).length : Int))
    ∧ (∀ (now : SDate) (users : List UserDoc) (page limit : Int)
        (sort roleF ageF : Option Str), 1 ≤ page → 1 ≤ limit →
      totalCountOf (getAllUsers now users page limit sort roleF ageF none) =
        some ((usersPipelineNoPage now users sort roleF ageF none).length : Int)) := by
  constructor
  · intro users flats page limit sort filters hp hl hown
    have hc : ¬ ((page - 1) * limit < 0 ∨ limit ≤ 0) := by
      push_neg
      exact ⟨mul_nonneg (by omega) (by omega), by omega⟩
    unfold getAllFlats
    rw [if_neg hc]
    have hlen : (flatsPipelineNoPage users flats sort filters).length =
        (flats.filter (matchesFilter (buildFilter filters))).length := by
      unfold flatsPipelineNoPage
      rw [length_joinOwners]
      · exact length_applySortBy ..
      · intro r hr
        exact hown r (List.mem_filter.1 ((mem_applySortBy ..).1 hr)).1
    rw [totalCountOf, hlen]
  · intro now users page limit sort roleF ageF hp hl
    have hc : ¬ ((page - 1) * limit < 0 ∨ limit ≤ 0) := by
      push_neg
      exact ⟨mul_nonneg (by omega) (by omega), by omega⟩
    unfold getAllUsers
    rw [if_neg hc]
    have hlen : (usersPipelineNoPage now users sort roleF ageF none).length =
        (users.filter (userMatchStage now roleF ageF)).length := by
      unfold usersPipelineNoPage
      rw [length_applySortBy]
      have hft : ((users.filter (userMatchStage now roleF ageF)).map (addFieldsU now)).filter
          (fcMatch none) =
          (users.filter (userMatchStage now roleF ageF)).map (addFieldsU now) :=
        List.filter_eq_self.2 (fun s _ => rfl)
      rw [hft, List.length_map]
    rw [totalCountOf, hlen]

theorem C1_witness :
    (totalCountOf (getAllFlats [ownerRec] [albaFlat] 1 5 none []) =
      some ((flatsPipelineNoPage [ownerRec] [albaFlat] none []).length : Int)) ∧
    (totalCountOf (getAllUsers ⟨2026, 10, 11⟩ [cu1] 1 5 none none none none) =
      some ((usersPipelineNoPage ⟨2026, 10, 11⟩ [cu1] none none none none).length : Int)) :=
  ⟨C1_total_count.1 [ownerRec] [albaFlat] 1 5 none [] (by decide) (by decide) (by decide),
   C1_total_count.2 ⟨2026, 10, 11⟩ [cu1] 1 5 none none none (by decide) (by decide)⟩

/-- C6: for a fixed filter, sort and limit `L ≥ 1`, concatenating the data
arrays of pages 1..N (skip = (page−1)·L) reproduces the full unpaginated
sorted result set — no duplicates, no gaps — once `N·L` covers it, for both
the flats and the users listing. -/
theorem C6_page_concat :
    (∀ (users flats : List Record) (sort : Option Str) (filters : List (Str × Str))
        (L N : Nat), 1 ≤ L →
      (flatsPipelineNoPage users flats sort filters).length ≤ N * L →
      ((List.range N).map (fun (i : Nat) =>
          dataOf (getAllFlats users flats ((i : Int) + 1) (L : Int) sort filters))).flatten =
        flatsPipelineNoPage users flats sort filters)
    ∧ (∀ (now : SDate) (users : List UserDoc) (sort roleF ageF fcF : Option Str)
        (L N : Nat), 1 ≤ L →
      (usersPipelineNoPage now users sort roleF ageF fcF).length ≤ N * L →
      ((List.range N).map (fun (i : Nat) =>
          dataOf (getAllUsers now users ((i : Int) + 1) (L : Int) sort roleF ageF fcF))).flatten =
        usersPipelineNoPage now users sort roleF ageF fcF) := by
  constructor
  · intro users flats sort filters L N hL hlen
    have hwin : ∀ i : Nat,
        dataOf (getAllFlats users flats ((i : Int) + 1) (L : Int) sort filters) =
          ((flatsPipelineNoPage users flats sort filters).drop (i * L)).take L := by
      intro i
      unfold getAllFlats
      have hc : ¬ (((i : Int) + 1 - 1) * (L : Int) < 0 ∨ (L : Int) ≤ 0) := by
        push_neg
        constructor
        · have h2 : ((i : Int) + 1 - 1) * (L : Int) = ((i * L : Nat) : Int) := by push_cast; ring
          rw [h2]
          positivity
        · exact_mod_cast hL
      rw [if_neg hc]
      have h1 : (((i : Int) + 1 - 1) * (L : Int)).toNat = i * L := by
        have h2 : ((i : Int) + 1 - 1) * (L : Int) = ((i * L : Nat) : Int) := by push_cast; ring
        rw [h2, Int.toNat_ofNat]
      simp only [dataOf, h1, Int.toNat_ofNat]
    rw [List.map_congr_left (fun i _ => hwin i)]
    exact flatten_windows N _ L hL hlen
  · intro now users sort roleF ageF fcF L N hL hlen
    have hwin : ∀ i : Nat,
        dataOf (getAllUsers now users ((i : Int) + 1) (L : Int) sort roleF ageF fcF) =
          ((usersPipelineNoPage now users sort roleF ageF fcF).drop (i * L)).take L := by
      intro i
      unfold getAllUsers
      have hc : ¬ (((i : Int) + 1 - 1) * (L : Int) < 0 ∨ (L : Int) ≤ 0) := by
        push_neg
        constructor
        · have h2 : ((i : Int) + 1 - 1) * (L : Int) = ((i * L : Nat) : Int) := by push_cast; ring
          rw [h2]
          positivity
        · exact_mod_cast hL
      rw [if_neg hc]
      have h1 : (((i : Int) + 1 - 1) * (L : Int)).toNat = i * L := by
        have h2 : ((i : Int) + 1 - 1) * (L : Int) = ((i * L : Nat) : Int) := by push_cast; ring
        rw [h2, Int.toNat_ofNat]
      simp only [dataOf, h1, Int.toNat_ofNat]
    rw [List.map_congr_left (fun i _ => hwin i)]
    exact flatten_windows N _ L hL hlen

theorem C6_witness :
    ((List.range 2).map (fun (i : Nat) =>
        dataOf (getAllFlats [ownerRec] [albaFlat] ((i : Int) + 1) (1 : Int) none []))).flatten =
      flatsPipelineNoPage [ownerRec] [albaFlat] none [] :=
  C6_page_concat.1 [ownerRec] [albaFlat] none [] 1 2 (by decide) (by decide)

theorem headIsDash_of_no_dash {s : Str} (h : hasChar '-' s = false) :
    headIsDash s = false := by
  cases s with
  | nil => rfl
  | cons c rest =>
    simp only [hasChar, List.any_cons, Bool.or_eq_false_iff] at h
    simp only [headIsDash]
    simpa using h.1

/-- A dash-free, comma-free, non-empty `sort` value parses to a single
ascending key. -/
theorem sortSpecOf_plain {f : Str} (hne : ¬ f = []) (hd : hasChar '-' f = false)
    (hcm : hasChar ',' f = false) : sortSpecOf (some f) = [(f, false)] := by
  have h0 : sortSpecOf (some f) =
      if f = [] then [(cs "createdAt", true)] else parseSortSpec f := rfl
  rw [h0, if_neg hne]
  unfold parseSortSpec
  rw [jsSplit_of_no_sep hcm]
  simp [dropFirstDash_of_no_dash hd, headIsDash_of_no_dash hd]

/-- Prefixing such a value with `-` parses to the same single key,
descending. -/
theorem sortSpecOf_desc {f : Str} (_hd : hasChar '-' f = false)
    (hcm : hasChar ',' f = false) : sortSpecOf (some ('-' :: f)) = [(f, true)] := by
  have h0 : sortSpecOf (some ('-' :: f)) =
      if ('-' :: f) = [] then [(cs "createdAt", true)] else parseSortSpec ('-' :: f) := rfl
  rw [h0, if_neg (by simp)]
  unfold parseSortSpec
  have hc : hasChar ',' ('-' :: f) = false := by
    simp only [hasChar, List.any_cons, Bool.or_eq_false_iff]
    exact ⟨by decide, hcm⟩
  rw [jsSplit_of_no_sep hc]
  simp [dropFirstDash, headIsDash]

/-- C5 helper: a sort key whose field values are equal is a tie in both
directions. -/
theorem specLe_of_field_eq (f : Str) (d : Bool) {a b : Record}
    (hty : getField a f = getField b f) :
    specLe getField [(f, d)] a b = true := by
  rw [specLe_iff, specCmp_single]
  have heq : optCmp (getField a f) (getField b f) = .eq := optCmp_eq_iff.2 hty
  have heq' : optCmp (getField b f) (getField a f) = .eq := optCmp_eq_iff.2 hty.symm
  unfold fieldCmp
  cases d <;> simp [heq, heq']

/-- C5: for a fixed collection and a single sortable field, `sort=field`
followed by `sort=-field` yields exactly reversed orders when the field has
no duplicate values; and with duplicates, tied records keep their
insertion-order relative position in both queries (the store's sort is
stable, modelled from the spec). -/
theorem C5_sort_reverse_stable (l : List Record) (f : Str) (hne : ¬ f = [])
    (hd : hasChar '-' f = false) (hcm : hasChar ',' f = false) :
    ((∀ a b, a ∈ l → b ∈ l → getField a f = getField b f → a = b) →
      applySortBy getField (some ('-' :: f)) l =
        (applySortBy getField (some f) l).reverse)
    ∧ (∀ a b : Record, [a, b] <+ l → getField a f = getField b f →
      [a, b] <+ applySortBy getField (some f) l ∧
      [a, b] <+ applySortBy getField (some ('-' :: f)) l) := by
  have hasc := sortSpecOf_plain hne hd hcm
  have hdesc := sortSpecOf_desc hd hcm
  constructor
  · intro hinj
    unfold applySortBy
    rw [hasc, hdesc]
    refine eq_of_perm_of_pairwise (r := fun x y => specLe getField [(f, true)] x y = true)
      ?_ ?_ ?_ ?_
    · exact (sortS_perm _ l).trans
        (((sortS_perm (specLe getField [(f, false)]) l).symm).trans
          (List.reverse_perm _).symm)
    · exact sortS_pairwise _ (specLe_total getField [(f, true)])
        (specLe_trans getField [(f, true)]) l
    · rw [List.pairwise_reverse]
      have hsw : ∀ a b : Record,
          specLe getField [(f, true)] b a = specLe getField [(f, false)] a b :=
        fun a b => rfl
      simp only [hsw]
      exact sortS_pairwise _ (specLe_total getField [(f, false)])
        (specLe_trans getField [(f, false)]) l
    · intro a b ha hb h1 h2
      have ha' : a ∈ l := (mem_sortS _ l a).1 ha
      have hb' : b ∈ l := (mem_sortS _ l b).1 hb
      apply hinj a b ha' hb'
      rw [specLe_iff, specCmp_single] at h1 h2
      have h1' : optCmp (getField b f) (getField a f) ≠ .gt := h1
      cases hc : optCmp (getField a f) (getField b f) with
      | lt =>
        have : optCmp (getField b f) (getField a f) = .gt := by
          rw [← optCmp_swap, hc]
          rfl
        exact absurd this h1'
      | eq => exact optCmp_eq_iff.1 hc
      | gt => exact absurd hc h2
  · intro a b hsub hty
    constructor
    · unfold applySortBy
      rw [hasc]
      exact sublist_sortS _ hsub (List.pairwise_pair.2 (specLe_of_field_eq f false hty))
    · unfold applySortBy
      rw [hdesc]
      exact sublist_sortS _ hsub (List.pairwise_pair.2 (specLe_of_field_eq f true hty))

/-- A seed record with rent 500. -/
def recA : Record := [(cs "rentPrice", .num 500), (cs "createdAt", .num 1)]

/-- A seed record with rent 300. -/
def recB : Record := [(cs "rentPrice", .num 300), (cs "createdAt", .num 2)]

theorem C5_witness :
    ((∀ a b, a ∈ [recA, recB] → b ∈ [recA, recB] →
        getField a (cs "rentPrice") = getField b (cs "rentPrice") → a = b) →
      applySortBy getField (some ('-' :: cs "rentPrice")) [recA, recB] =
        (applySortBy getField (some (cs "rentPrice")) [recA, recB]).reverse)
    ∧ (∀ a b : Record, [a, b] <+ [recA, recB] →
        getField a (cs "rentPrice") = getField b (cs "rentPrice") →
        [a, b] <+ applySortBy getField (some (cs "rentPrice")) [recA, recB] ∧
        [a, b] <+ applySortBy getField (some ('-' :: cs "rentPrice")) [recA, recB]) :=
  C5_sort_reverse_stable [recA, recB] (cs "rentPrice") (by decide) (by decide) (by decide)

end RentEase
